import Mathlib

set_option maxRecDepth 2000

/-!
Shallow embedding of the `finder` search engine (src/main.rs).

Text is modelled as `List Nat` of Unicode scalar values; raw file content as
`List Nat` of byte values (< 256).  The `regex::Regex` type is opaque in the
source, so it is embedded as a pattern text together with an abstract boolean
match predicate; the pattern compiler is parameterised by an abstract builder
function standing for `RegexBuilder::build`.
-/

namespace Finder

/-- Embedding of `regex::Regex`: the pattern text (`as_str`) plus the opaque
match predicate (`is_match`). -/
structure Regex where
  as_str : List Nat
  is_match : List Nat → Bool

/-- Embedding of the `SearchResult` struct of src/main.rs. -/
structure SearchResult where
  path : List Nat
  line_number : Nat
  line : List Nat
  pattern : List Nat
deriving DecidableEq

/-- Helper for `starts_with`, recursing on the pattern. -/
def starts_with_go : List Nat → List Nat → Bool
  | [], _ => true
  | _ :: _, [] => false
  | p :: ps, b :: bs => b == p && starts_with_go ps bs

/-- Rust's `slice::starts_with`. -/
def starts_with (buffer pat : List Nat) : Bool :=
  starts_with_go pat buffer

/-- The encodings relevant to `Encoding::for_bom` plus the fallback. -/
inductive Enc
  | utf8
  | utf16le
  | utf16be
  | windows1252
deriving DecidableEq

/-- Embedding of `encoding_rs::Encoding::for_bom`: recognise the UTF-8,
UTF-16LE and UTF-16BE byte-order marks, in that order. -/
def for_bom (buffer : List Nat) : Option (Enc × Nat) :=
  if starts_with buffer [0xEF, 0xBB, 0xBF] then some (Enc.utf8, 3)
  else if starts_with buffer [0xFF, 0xFE] then some (Enc.utf16le, 2)
  else if starts_with buffer [0xFE, 0xFF] then some (Enc.utf16be, 2)
  else none

/-- Lines 65-66 of src/main.rs: BOM detection on the first
`min 4096 buffer.len()` bytes, with `(WINDOWS_1252, 0)` as fallback. -/
def detect_encoding (buffer : List Nat) : Enc × Nat :=
  (for_bom (buffer.take (min 4096 buffer.length))).getD (Enc.windows1252, 0)

/-- The windows-1252 single-byte decode table (WHATWG index): bytes outside
0x80..0x9F map to themselves, the 0x80..0x9F range maps to the listed
code points (every byte value decodes; the decoder can never fail). -/
def windows1252_map (b : Nat) : Nat :=
  if b < 0x80 then b
  else if b ≥ 0xA0 then b
  else match b with
  | 0x80 => 0x20AC | 0x81 => 0x81   | 0x82 => 0x201A | 0x83 => 0x192
  | 0x84 => 0x201E | 0x85 => 0x2026 | 0x86 => 0x2020 | 0x87 => 0x2021
  | 0x88 => 0x2C6  | 0x89 => 0x2030 | 0x8A => 0x160  | 0x8B => 0x2039
  | 0x8C => 0x152  | 0x8D => 0x8D   | 0x8E => 0x17D  | 0x8F => 0x8F
  | 0x90 => 0x90   | 0x91 => 0x2018 | 0x92 => 0x2019 | 0x93 => 0x201C
  | 0x94 => 0x201D | 0x95 => 0x2022 | 0x96 => 0x2013 | 0x97 => 0x2014
  | 0x98 => 0x2DC  | 0x99 => 0x2122 | 0x9A => 0x161  | 0x9B => 0x203A
  | 0x9C => 0x153  | 0x9D => 0x9D   | 0x9E => 0x17E  | _ => 0x178

/-- windows-1252 decoding: one scalar per byte, total. -/
def windows1252_decode (buffer : List Nat) : List Nat :=
  buffer.map windows1252_map

/-- Classification of a byte at the start of a UTF-8 sequence (the
`bytes needed = 0` state of the WHATWG UTF-8 decoder used by
`encoding_rs`): an ASCII byte, a lead byte with its continuation count and
the bounds for the first continuation byte, or an invalid byte. -/
inductive Utf8Start
  | ascii (v : Nat)
  | lead (cp needed lower upper : Nat)
  | invalid
deriving DecidableEq

/-- The lead-byte classification of the WHATWG UTF-8 decoder. -/
def utf8_start (b : Nat) : Utf8Start :=
  if b < 0x80 then Utf8Start.ascii b
  else if 0xC2 ≤ b ∧ b ≤ 0xDF then Utf8Start.lead (b - 0xC0) 1 0x80 0xBF
  else if 0xE0 ≤ b ∧ b ≤ 0xEF then
    Utf8Start.lead (b - 0xE0) 2 (if b = 0xE0 then 0xA0 else 0x80)
      (if b = 0xED then 0x9F else 0xBF)
  else if 0xF0 ≤ b ∧ b ≤ 0xF4 then
    Utf8Start.lead (b - 0xF0) 3 (if b = 0xF0 then 0x90 else 0x80)
      (if b = 0xF4 then 0x8F else 0xBF)
  else Utf8Start.invalid

/-- The WHATWG UTF-8 decoder loop: `cp` is the partial code point, `needed`
the number of continuation bytes still expected, `lower`/`upper` the bounds
for the next continuation byte.  An out-of-range byte emits U+FFFD and is
reprocessed as a sequence start (the spec's "prepend byte" step, inlined).
At end of input a pending sequence emits one U+FFFD. -/
def utf8_go (cp needed lower upper : Nat) : List Nat → List Nat
  | [] => if needed = 0 then [] else [0xFFFD]
  | b :: rest =>
    if needed = 0 then
      match utf8_start b with
      | Utf8Start.ascii v => v :: utf8_go 0 0 0x80 0xBF rest
      | Utf8Start.lead cp' n' lo hi => utf8_go cp' n' lo hi rest
      | Utf8Start.invalid => 0xFFFD :: utf8_go 0 0 0x80 0xBF rest
    else
      if lower ≤ b ∧ b ≤ upper then
        if needed = 1 then
          (cp * 0x40 + (b - 0x80)) :: utf8_go 0 0 0x80 0xBF rest
        else utf8_go (cp * 0x40 + (b - 0x80)) (needed - 1) 0x80 0xBF rest
      else
        0xFFFD ::
          match utf8_start b with
          | Utf8Start.ascii v => v :: utf8_go 0 0 0x80 0xBF rest
          | Utf8Start.lead cp' n' lo hi => utf8_go cp' n' lo hi rest
          | Utf8Start.invalid => 0xFFFD :: utf8_go 0 0 0x80 0xBF rest

/-- WHATWG UTF-8 decoding with U+FFFD replacement, as performed by
`encoding_rs` `decode`: malformed sequences are replaced, never dropped,
and decoding never fails. -/
def utf8_decode (buffer : List Nat) : List Nat :=
  utf8_go 0 0 0x80 0xBF buffer

/-- The WHATWG UTF-16 decoder loop (`le` selects byte order): the first
`Option Nat` is a pending lead surrogate, the second a pending first byte of
a code unit.  A lead surrogate not followed by a trail surrogate emits
U+FFFD and the offending unit is reprocessed (the spec's "prepend" step,
inlined); pending state at end of input emits one U+FFFD. -/
def utf16_go (le : Bool) : Option Nat → Option Nat → List Nat → List Nat
  | none, none, [] => []
  | some _, none, [] => [0xFFFD]
  | none, some _, [] => [0xFFFD]
  | some _, some _, [] => [0xFFFD]
  | ls, none, b :: rest => utf16_go le ls (some b) rest
  | none, some lb, b :: rest =>
    if 0xD800 ≤ (if le then lb + 256 * b else 256 * lb + b) ∧
        (if le then lb + 256 * b else 256 * lb + b) < 0xDC00 then
      utf16_go le (some (if le then lb + 256 * b else 256 * lb + b)) none rest
    else if 0xDC00 ≤ (if le then lb + 256 * b else 256 * lb + b) ∧
        (if le then lb + 256 * b else 256 * lb + b) < 0xE000 then
      0xFFFD :: utf16_go le none none rest
    else (if le then lb + 256 * b else 256 * lb + b) ::
      utf16_go le none none rest
  | some ls, some lb, b :: rest =>
    if 0xDC00 ≤ (if le then lb + 256 * b else 256 * lb + b) ∧
        (if le then lb + 256 * b else 256 * lb + b) < 0xE000 then
      (0x10000 + (ls - 0xD800) * 0x400 +
        ((if le then lb + 256 * b else 256 * lb + b) - 0xDC00)) ::
        utf16_go le none none rest
    else
      0xFFFD ::
        (if 0xD800 ≤ (if le then lb + 256 * b else 256 * lb + b) ∧
            (if le then lb + 256 * b else 256 * lb + b) < 0xDC00 then
          utf16_go le (some (if le then lb + 256 * b else 256 * lb + b))
            none rest
        else if 0xDC00 ≤ (if le then lb + 256 * b else 256 * lb + b) ∧
            (if le then lb + 256 * b else 256 * lb + b) < 0xE000 then
          0xFFFD :: utf16_go le none none rest
        else (if le then lb + 256 * b else 256 * lb + b) ::
          utf16_go le none none rest)

/-- WHATWG UTF-16 decoding (`le` selects byte order) with U+FFFD replacement:
surrogate pairs combine, unpaired surrogates and a trailing lone byte become
U+FFFD; decoding never fails. -/
def utf16_decode (le : Bool) (buffer : List Nat) : List Nat :=
  utf16_go le none none buffer

/-- Dispatch of `encoding.decode` on the detected encoding. -/
def decode_with : Enc → List Nat → List Nat
  | Enc.utf8 => utf8_decode
  | Enc.utf16le => utf16_decode true
  | Enc.utf16be => utf16_decode false
  | Enc.windows1252 => windows1252_decode

/-- `encoding_rs::Encoding::decode`: BOM-sniff the input itself; a
recognized mark at its start overrides `self` and is stripped, otherwise
decode the input with `self`. -/
def encoding_decode (enc : Enc) (bytes : List Nat) : List Nat :=
  match for_bom bytes with
  | some (enc2, bom_length) => decode_with enc2 (bytes.drop bom_length)
  | none => decode_with enc bytes

/-- Lines 65-67 of src/main.rs: detect the encoding from the capped BOM
sample, strip the detected mark, then call `encoding.decode` on the
remainder — which performs its own BOM sniffing on that remainder. -/
def decode_buffer (buffer : List Nat) : List Nat :=
  encoding_decode (detect_encoding buffer).1
    (buffer.drop (detect_encoding buffer).2)

/-- `str::split_inclusive('\n')`: each fragment keeps its terminating
newline; no empty trailing fragment is produced. -/
def split_incl_nl : List Nat → List (List Nat)
  | [] => []
  | c :: rest =>
    if c = 10 then [c] :: split_incl_nl rest
    else match split_incl_nl rest with
      | [] => [[c]]
      | l :: ls => (c :: l) :: ls

/-- The per-fragment map of Rust's `str::lines`: strip one trailing `\n`,
and if that succeeded also one trailing `\r`. -/
def line_map (l : List Nat) : List Nat :=
  if l.getLast? = some 10 then
    if l.dropLast.getLast? = some 13 then l.dropLast.dropLast else l.dropLast
  else l

/-- Rust's `str::lines()` on decoded text: split at `\n`, treating a `\r`
immediately before the `\n` as part of the terminator; a final fragment after
the last terminator appears only when non-empty. -/
def str_lines (s : List Nat) : List (List Nat) :=
  (split_incl_nl s).map line_map

/-- The inner loop of `search_in_file_streaming` (lines 71-81): try the
regexes in order, stop at the first that matches. -/
def first_matching (regexes : List Regex) (line : List Nat) : Option Regex :=
  match regexes with
  | [] => none
  | re :: rest => if re.is_match line then some re else first_matching rest line

/-- The `for (index, line) in decoded_content.lines().enumerate()` loop of
`search_in_file_streaming`: `index` is the running 0-based line index. -/
def match_lines (path : List Nat) (regexes : List Regex) :
    Nat → List (List Nat) → List SearchResult
  | _, [] => []
  | index, line :: rest =>
    match first_matching regexes line with
    | some re =>
      { path := path, line_number := index + 1, line := line,
        pattern := re.as_str } :: match_lines path regexes (index + 1) rest
    | none => match_lines path regexes (index + 1) rest

/-- The matching phase of `search_in_file_streaming` on already-decoded
text: enumerate the logical lines from index 0. -/
def search_decoded (path : List Nat) (regexes : List Regex)
    (decoded : List Nat) : List SearchResult :=
  match_lines path regexes 0 (str_lines decoded)

/-- `search_in_file_streaming` (src/main.rs lines 59-84) with the file's raw
byte content passed in place of the `fs::File` read (read errors are handled
at the caller, see `run_app`). -/
def search_in_file_streaming (path : List Nat) (regexes : List Regex)
    (buffer : List Nat) : List SearchResult :=
  search_decoded path regexes (decode_buffer buffer)

/-- `read_lines_from_file` (src/main.rs lines 106-117) on the pattern file's
raw byte content: same decode pipeline, one string per `lines()` item. -/
def read_lines_from_file (buffer : List Nat) : List (List Nat) :=
  str_lines (decode_buffer buffer)

/-- `load_patterns` (src/main.rs lines 119-127): a literal pattern gives a
one-element list, otherwise the pattern file's lines. -/
def load_patterns (pattern : Option (List Nat))
    (file_content : Option (List Nat)) : Option (List (List Nat)) :=
  match pattern with
  | some p => some [p]
  | none => file_content.map read_lines_from_file

/-- Association-list embedding of the `HashMap<(String, bool), Regex>` cache
of `compile_regex_with_cache`. -/
def lookup_cache (cache : List ((List Nat × Bool) × Regex))
    (key : List Nat × Bool) : Option Regex :=
  match cache with
  | [] => none
  | (k, r) :: rest => if k = key then some r else lookup_cache rest key

/-- The iteration of `compile_regex_with_cache` (src/main.rs lines 86-100),
parameterised by the abstract `RegexBuilder` result `build`.  The second
component of the result records, as instrumentation, the keys on which
`build` was actually invoked (i.e. the cache misses), in order. -/
def compile_loop (build : List Nat → Bool → Except Nat Regex) :
    List (List Nat) → Bool → List ((List Nat × Bool) × Regex) →
    Except Nat (List Regex × List (List Nat × Bool))
  | [], _, _ => Except.ok ([], [])
  | p :: ps, ignore_case, cache =>
    match lookup_cache cache (p, ignore_case) with
    | some cached_regex =>
      match compile_loop build ps ignore_case cache with
      | Except.ok (rs, built) => Except.ok (cached_regex :: rs, built)
      | Except.error e => Except.error e
    | none =>
      match build p ignore_case with
      | Except.error e => Except.error e
      | Except.ok regex =>
        match compile_loop build ps ignore_case
            (((p, ignore_case), regex) :: cache) with
        | Except.ok (rs, built) =>
          Except.ok (regex :: rs, (p, ignore_case) :: built)
        | Except.error e => Except.error e

/-- `compile_regex_with_cache` (src/main.rs lines 86-100): compile the
patterns in order against an initially empty cache. -/
def compile_regex_with_cache (build : List Nat → Bool → Except Nat Regex)
    (patterns : List (List Nat)) (ignore_case : Bool) :
    Except Nat (List Regex) :=
  match compile_loop build patterns ignore_case [] with
  | Except.ok (rs, _) => Except.ok rs
  | Except.error e => Except.error e

/-- Modelled from the spec: compiling every pattern independently, in input
order, without any cache (the reference point for the de-duplication
refinement claim). -/
def compile_regex_no_cache (build : List Nat → Bool → Except Nat Regex) :
    List (List Nat) → Bool → Except Nat (List Regex)
  | [], _ => Except.ok []
  | p :: ps, ignore_case =>
    match build p ignore_case with
    | Except.error e => Except.error e
    | Except.ok r =>
      match compile_regex_no_cache build ps ignore_case with
      | Except.ok rs => Except.ok (r :: rs)
      | Except.error e => Except.error e

/-- `partition_paths` (src/main.rs lines 102-104), with the filesystem
existence check `Path::exists` passed as a predicate. -/
def partition_paths (path_exists : List Nat → Bool)
    (paths : List (List Nat)) : List (List Nat) × List (List Nat) :=
  paths.partition path_exists

/-- The parallel scan loop of `run_app` (src/main.rs lines 180-197): each
file contributes its batch of results; a file whose read fails (`none`)
contributes nothing.  `files` is given in batch-completion order. -/
def scan_files (regexes : List Regex)
    (read_file : List Nat → Option (List Nat))
    (files : List (List Nat)) : List SearchResult :=
  files.flatMap fun p =>
    match read_file p with
    | some buffer => search_in_file_streaming p regexes buffer
    | none => []

/-- Observable outcome of `run_app`: `ok` with the aggregated results,
`exitCode` for `std::process::exit`, `err` for an `Err(e)` return. -/
inductive AppOutcome
  | ok (results : List SearchResult)
  | exitCode (code : Nat)
  | err (e : Nat)
deriving DecidableEq

/-- `run_app` (src/main.rs lines 129-250) up to the point where the results
are handed to the reporter.  The regex builder, the filesystem existence
check, the directory traversal (`WalkBuilder`) and the per-file read are
passed as abstract environment functions. -/
def run_app (build : List Nat → Bool → Except Nat Regex)
    (path_exists : List Nat → Bool)
    (enumerate : List (List Nat) → List (List Nat))
    (read_file : List Nat → Option (List Nat))
    (patterns : List (List Nat)) (ignore_case : Bool)
    (paths : List (List Nat)) : AppOutcome :=
  match compile_regex_with_cache build patterns ignore_case with
  | Except.error e => AppOutcome.err e
  | Except.ok regexes =>
    if (partition_paths path_exists paths).1.isEmpty then
      if (partition_paths path_exists paths).2.isEmpty then AppOutcome.ok []
      else AppOutcome.exitCode 1
    else
      if (enumerate (partition_paths path_exists paths).1).isEmpty then
        AppOutcome.ok []
      else
        AppOutcome.ok (scan_files regexes read_file
          (enumerate (partition_paths path_exists paths).1))

/-! ### Helper notions used by the statements -/

/-- A line terminator: `true` is the paired `\r\n` convention, `false` the
lone `\n` convention. -/
def line_term (t : Bool) : List Nat := if t then [13, 10] else [10]

/-- A text in which every logical line is explicitly terminated, mixing the
two conventions as directed by `ts`. -/
def mk_text (ls : List (List Nat)) (ts : List Bool) : List Nat :=
  (List.zipWith (fun l t => l ++ line_term t) ls ts).flatten

/-- A Unicode scalar value: in range and not a surrogate. -/
def is_scalar (c : Nat) : Prop := c < 0x110000 ∧ ¬(0xD800 ≤ c ∧ c < 0xE000)

instance (c : Nat) : Decidable (is_scalar c) := by
  unfold is_scalar; infer_instance

/-- A well-formed logical line: contains no line feed and does not end in a
carriage return (so that attaching a terminator is unambiguous). -/
def good_line (l : List Nat) : Prop := 10 ∉ l ∧ l.getLast? ≠ some 13

/-! ### Lemmas about `str_lines` -/

theorem split_incl_nl_append_nl (l rest : List Nat) (hl : 10 ∉ l) :
    split_incl_nl (l ++ 10 :: rest) = (l ++ [10]) :: split_incl_nl rest := by
  induction l with
  | nil => simp [split_incl_nl]
  | cons c l ih =>
    have hc : c ≠ 10 := fun h => hl (h ▸ List.mem_cons_self c l)
    have hl' : 10 ∉ l := fun h => hl (List.mem_cons_of_mem c h)
    rw [List.cons_append]
    conv_lhs => rw [split_incl_nl]
    rw [if_neg hc, ih hl']
    rfl

theorem split_incl_nl_no_nl (l : List Nat) (hne : l ≠ []) (hl : 10 ∉ l) :
    split_incl_nl l = [l] := by
  induction l with
  | nil => exact absurd rfl hne
  | cons c l ih =>
    have hc : c ≠ 10 := fun h => hl (h ▸ List.mem_cons_self c l)
    have hl' : 10 ∉ l := fun h => hl (List.mem_cons_of_mem c h)
    cases l with
    | nil => simp [split_incl_nl, if_neg hc]
    | cons d l' =>
      conv_lhs => rw [split_incl_nl]
      rw [if_neg hc, ih (by simp) hl']

theorem line_map_append_lf (l : List Nat) (h : l.getLast? ≠ some 13) :
    line_map (l ++ [10]) = l := by
  unfold line_map
  rw [List.getLast?_concat, List.dropLast_concat, if_pos rfl, if_neg h]

theorem line_map_append_crlf (l : List Nat) :
    line_map (l ++ [13, 10]) = l := by
  have hs : l ++ [13, 10] = (l ++ [13]) ++ [10] := by simp
  unfold line_map
  rw [hs, List.getLast?_concat, List.dropLast_concat, if_pos rfl,
    List.getLast?_concat, if_pos rfl, List.dropLast_concat]

theorem line_map_no_lf (l : List Nat) (h : l.getLast? ≠ some 10) :
    line_map l = l := by
  unfold line_map
  rw [if_neg h]

theorem str_lines_mk_text (ls : List (List Nat)) (ts : List Bool)
    (hlen : ls.length = ts.length) (hgood : ∀ l ∈ ls, good_line l) :
    str_lines (mk_text ls ts) = ls := by
  induction ls generalizing ts with
  | nil => cases ts with
    | nil => rfl
    | cons t ts => simp at hlen
  | cons l ls ih =>
    cases ts with
    | nil => simp at hlen
    | cons t ts =>
      have hgl := hgood l (List.mem_cons_self l ls)
      have hgood' : ∀ x ∈ ls, good_line x :=
        fun x hx => hgood x (List.mem_cons_of_mem l hx)
      have hlen' : ls.length = ts.length := by simpa using hlen
      cases t with
      | false =>
        have : mk_text (l :: ls) (false :: ts) = l ++ 10 :: mk_text ls ts := by
          simp [mk_text, line_term]
        rw [this]
        unfold str_lines
        rw [split_incl_nl_append_nl l _ hgl.1]
        simp only [List.map_cons]
        rw [line_map_append_lf l hgl.2]
        have := ih ts hlen' hgood'
        unfold str_lines at this
        rw [this]
      | true =>
        have : mk_text (l :: ls) (true :: ts) =
            (l ++ [13]) ++ 10 :: mk_text ls ts := by
          simp [mk_text, line_term]
        rw [this]
        unfold str_lines
        have hnl : 10 ∉ l ++ [13] := by
          intro h
          rcases List.mem_append.mp h with h | h
          · exact hgl.1 h
          · simp at h
        rw [split_incl_nl_append_nl (l ++ [13]) _ hnl]
        simp only [List.map_cons]
        have : (l ++ [13]) ++ [10] = l ++ [13, 10] := by simp
        rw [this, line_map_append_crlf l]
        have := ih ts hlen' hgood'
        unfold str_lines at this
        rw [this]

theorem str_lines_no_lf (s : List Nat) (hne : s ≠ []) (hs : 10 ∉ s) :
    str_lines s = [s] := by
  unfold str_lines
  rw [split_incl_nl_no_nl s hne hs]
  simp only [List.map_cons, List.map_nil]
  rw [line_map_no_lf s]
  intro h
  exact hs (List.mem_of_mem_getLast? h)

/-! ### Lemmas about the matching loop -/

theorem first_matching_none (rs : List Regex) (line : List Nat)
    (h : ∀ re ∈ rs, re.is_match line = false) :
    first_matching rs line = none := by
  induction rs with
  | nil => rfl
  | cons re rs ih =>
    unfold first_matching
    rw [h re (List.mem_cons_self re rs)]
    simp only [Bool.false_eq_true, if_false]
    exact ih fun r hr => h r (List.mem_cons_of_mem re hr)

theorem first_matching_spec (rs : List Regex) (line : List Nat) (re : Regex)
    (h : first_matching rs line = some re) :
    ∃ k, ∃ hk : k < rs.length, rs.get ⟨k, hk⟩ = re ∧ re.is_match line = true ∧
      ∀ j (hj : j < rs.length), j < k →
        (rs.get ⟨j, hj⟩).is_match line = false := by
  induction rs with
  | nil => simp [first_matching] at h
  | cons r rs ih =>
    unfold first_matching at h
    by_cases hm : r.is_match line
    · rw [if_pos hm] at h
      injection h with h
      exact ⟨0, by simp, by simp [h], h ▸ hm,
        fun j hj hlt => absurd hlt (by omega)⟩
    · rw [if_neg hm] at h
      obtain ⟨k, hk, hget, hmatch, hprev⟩ := ih h
      refine ⟨k + 1, by simpa using Nat.succ_lt_succ hk, by simpa using hget,
        hmatch, ?_⟩
      intro j hj hlt
      cases j with
      | zero => simpa using Bool.not_eq_true _ |>.mp hm
      | succ j' =>
        have hj' : j' < rs.length := by simp at hj; omega
        simpa using hprev j' hj' (by omega)

theorem first_matching_is_some (rs : List Regex) (line : List Nat)
    (h : ∃ re ∈ rs, re.is_match line = true) :
    ∃ re, first_matching rs line = some re := by
  induction rs with
  | nil => obtain ⟨re, h1, _⟩ := h; simp at h1
  | cons r rs ih =>
    unfold first_matching
    by_cases hm : r.is_match line
    · exact ⟨r, if_pos hm⟩
    · obtain ⟨re, hmem, hmatch⟩ := h
      rcases List.mem_cons.mp hmem with rfl | hmem'
      · exact absurd hmatch hm
      · obtain ⟨re', h'⟩ := ih ⟨re, hmem', hmatch⟩
        exact ⟨re', by rw [if_neg hm]; exact h'⟩

theorem match_lines_number_gt (path : List Nat) (rs : List Regex) :
    ∀ (ls : List (List Nat)) (k : Nat) (r : SearchResult),
      r ∈ match_lines path rs k ls → k < r.line_number := by
  intro ls
  induction ls with
  | nil => intro k r h; simp [match_lines] at h
  | cons line ls ih =>
    intro k r h
    unfold match_lines at h
    cases hf : first_matching rs line with
    | some re =>
      rw [hf] at h
      rcases List.mem_cons.mp h with rfl | h'
      · simp
      · have := ih (k + 1) r h'
        omega
    | none =>
      rw [hf] at h
      have := ih (k + 1) r h
      omega

theorem match_lines_mem_spec (path : List Nat) (rs : List Regex) :
    ∀ (ls : List (List Nat)) (k : Nat) (r : SearchResult),
      r ∈ match_lines path rs k ls →
      ∃ i, ∃ hi : i < ls.length, r.line_number = k + i + 1 ∧
        r.line = ls.get ⟨i, hi⟩ ∧ r.path = path ∧
        ∃ re, first_matching rs (ls.get ⟨i, hi⟩) = some re ∧
          r.pattern = re.as_str := by
  intro ls
  induction ls with
  | nil => intro k r h; simp [match_lines] at h
  | cons line ls ih =>
    intro k r h
    unfold match_lines at h
    cases hf : first_matching rs line with
    | some re =>
      rw [hf] at h
      rcases List.mem_cons.mp h with rfl | h'
      · exact ⟨0, by simp, by simp, by simp, rfl, re, by simpa using hf, rfl⟩
      · obtain ⟨i, hi, h1, h2, h3, re', h4, h5⟩ := ih (k + 1) r h'
        exact ⟨i + 1, by simpa using Nat.succ_lt_succ hi,
          by omega, by simpa using h2, h3, re', by simpa using h4, h5⟩
    | none =>
      rw [hf] at h
      obtain ⟨i, hi, h1, h2, h3, re', h4, h5⟩ := ih (k + 1) r h
      exact ⟨i + 1, by simpa using Nat.succ_lt_succ hi,
        by omega, by simpa using h2, h3, re', by simpa using h4, h5⟩

theorem match_lines_filter (path : List Nat) (rs : List Regex) :
    ∀ (ls : List (List Nat)) (k i : Nat) (hi : i < ls.length),
      (match_lines path rs k ls).filter
          (fun r => r.line_number == k + i + 1) =
        match first_matching rs (ls.get ⟨i, hi⟩) with
        | some re =>
          [{ path := path, line_number := k + i + 1, line := ls.get ⟨i, hi⟩,
             pattern := re.as_str }]
        | none => [] := by
  intro ls
  induction ls with
  | nil => intro k i hi; simp at hi
  | cons line ls ih =>
    intro k i hi
    have htail : ∀ n, n ≤ k + 1 →
        (match_lines path rs (k + 1) ls).filter
          (fun r => r.line_number == n) = [] := by
      intro n hn
      rw [List.filter_eq_nil_iff]
      intro r hr
      have := match_lines_number_gt path rs ls (k + 1) r hr
      simp only [beq_iff_eq]
      omega
    cases i with
    | zero =>
      have hget : (line :: ls).get ⟨0, hi⟩ = line := rfl
      rw [hget]
      unfold match_lines
      simp only [Nat.add_zero]
      cases hf : first_matching rs line with
      | some re =>
        rw [List.filter_cons, htail (k + 1) (by omega)]
        simp
      | none =>
        exact htail (k + 1) (by omega)
    | succ i' =>
      have hi' : i' < ls.length := by simp at hi; omega
      have hget : (line :: ls).get ⟨i' + 1, hi⟩ = ls.get ⟨i', hi'⟩ := rfl
      rw [hget]
      have harith : k + (i' + 1) + 1 = (k + 1) + i' + 1 := by omega
      rw [harith]
      unfold match_lines
      cases hf : first_matching rs line with
      | some re =>
        rw [List.filter_cons]
        have hne : ((k + 1 : Nat) == (k + 1) + i' + 1) = false := by
          rw [beq_eq_false_iff_ne]
          omega
        simp only [hne, Bool.false_eq_true, if_false]
        exact ih (k + 1) i' hi'
      | none => exact ih (k + 1) i' hi'

/-! ### Decoder validity: every decoded value is a Unicode scalar value -/

theorem windows1252_map_scalar : ∀ b < 256, is_scalar (windows1252_map b) := by
  intro b hb
  unfold windows1252_map
  by_cases h1 : b < 0x80
  · rw [if_pos h1]
    exact ⟨by omega, by omega⟩
  · rw [if_neg h1]
    by_cases h2 : b ≥ 0xA0
    · rw [if_pos h2]
      exact ⟨by omega, by omega⟩
    · rw [if_neg h2]
      have hlb : 0x80 ≤ b := by omega
      have hub : b ≤ 0x9F := by omega
      interval_cases b <;> decide

theorem windows1252_decode_scalar (buffer : List Nat)
    (hb : ∀ b ∈ buffer, b < 256) :
    ∀ c ∈ windows1252_decode buffer, is_scalar c := by
  intro c hc
  obtain ⟨b, hbmem, rfl⟩ := List.mem_map.mp hc
  exact windows1252_map_scalar b (hb b hbmem)

/-- Invariant on the UTF-8 decoder state: completing the pending sequence
with in-bounds continuation bytes always produces a Unicode scalar value. -/
def state_ok (cp : Nat) : Nat → Nat → Nat → Prop
  | 0, _, _ => True
  | 1, lo, hi => ∀ b, lo ≤ b → b ≤ hi → is_scalar (cp * 0x40 + (b - 0x80))
  | n + 2, lo, hi => ∀ b, lo ≤ b → b ≤ hi →
      state_ok (cp * 0x40 + (b - 0x80)) (n + 1) 0x80 0xBF

theorem utf8_start_ascii (b v : Nat) (h : utf8_start b = Utf8Start.ascii v) :
    v < 0x80 := by
  unfold utf8_start at h
  by_cases h1 : b < 0x80
  · rw [if_pos h1] at h
    injection h with h'
    omega
  · rw [if_neg h1] at h
    by_cases h2 : 0xC2 ≤ b ∧ b ≤ 0xDF
    · rw [if_pos h2] at h
      cases h
    · rw [if_neg h2] at h
      by_cases h3 : 0xE0 ≤ b ∧ b ≤ 0xEF
      · rw [if_pos h3] at h
        cases h
      · rw [if_neg h3] at h
        by_cases h4 : 0xF0 ≤ b ∧ b ≤ 0xF4
        · rw [if_pos h4] at h
          cases h
        · rw [if_neg h4] at h
          cases h

theorem utf8_start_lead_ok (b cp' n' lo hi : Nat)
    (h : utf8_start b = Utf8Start.lead cp' n' lo hi) :
    state_ok cp' n' lo hi := by
  unfold utf8_start at h
  by_cases h1 : b < 0x80
  · rw [if_pos h1] at h
    cases h
  rw [if_neg h1] at h
  by_cases h2 : 0xC2 ≤ b ∧ b ≤ 0xDF
  · rw [if_pos h2] at h
    injection h with e1 e2 e3 e4
    subst e1; subst e2; subst e3; subst e4
    intro b2 hb2l hb2h
    exact ⟨by omega, by omega⟩
  rw [if_neg h2] at h
  by_cases h3 : 0xE0 ≤ b ∧ b ≤ 0xEF
  · rw [if_pos h3] at h
    injection h with e1 e2 e3 e4
    subst e1; subst e2; subst e3; subst e4
    intro b2 hb2l hb2h b3 hb3l hb3h
    by_cases he0 : b = 0xE0
    · rw [if_pos he0] at hb2l
      rw [if_neg (by omega : ¬b = 0xED)] at hb2h
      exact ⟨by omega, by omega⟩
    · rw [if_neg he0] at hb2l
      by_cases hed : b = 0xED
      · rw [if_pos hed] at hb2h
        exact ⟨by omega, by omega⟩
      · rw [if_neg hed] at hb2h
        exact ⟨by omega, by omega⟩
  rw [if_neg h3] at h
  by_cases h4 : 0xF0 ≤ b ∧ b ≤ 0xF4
  · rw [if_pos h4] at h
    injection h with e1 e2 e3 e4
    subst e1; subst e2; subst e3; subst e4
    intro b2 hb2l hb2h b3 hb3l hb3h b4 hb4l hb4h
    by_cases hf0 : b = 0xF0
    · rw [if_pos hf0] at hb2l
      rw [if_neg (by omega : ¬b = 0xF4)] at hb2h
      exact ⟨by omega, by omega⟩
    · rw [if_neg hf0] at hb2l
      by_cases hf4 : b = 0xF4
      · rw [if_pos hf4] at hb2h
        exact ⟨by omega, by omega⟩
      · rw [if_neg hf4] at hb2h
        exact ⟨by omega, by omega⟩
  rw [if_neg h4] at h
  cases h

theorem utf8_step0_scalar (b : Nat) (rest : List Nat)
    (ihrest : ∀ cp needed lo hi, state_ok cp needed lo hi →
      ∀ c ∈ utf8_go cp needed lo hi rest, is_scalar c)
    (c : Nat)
    (hc : c ∈ match utf8_start b with
      | Utf8Start.ascii v => v :: utf8_go 0 0 0x80 0xBF rest
      | Utf8Start.lead cp' n' lo hi => utf8_go cp' n' lo hi rest
      | Utf8Start.invalid => 0xFFFD :: utf8_go 0 0 0x80 0xBF rest) :
    is_scalar c := by
  cases hcls : utf8_start b with
  | ascii v =>
    rw [hcls] at hc
    rcases List.mem_cons.mp hc with rfl | hc'
    · have := utf8_start_ascii b c hcls
      exact ⟨by omega, by omega⟩
    · exact ihrest 0 0 0x80 0xBF trivial c hc'
  | lead cp' n' lo hi =>
    rw [hcls] at hc
    exact ihrest cp' n' lo hi (utf8_start_lead_ok b cp' n' lo hi hcls) c hc
  | invalid =>
    rw [hcls] at hc
    rcases List.mem_cons.mp hc with rfl | hc'
    · exact ⟨by omega, by omega⟩
    · exact ihrest 0 0 0x80 0xBF trivial c hc'

theorem utf8_go_scalar (l : List Nat) :
    ∀ cp needed lo hi, state_ok cp needed lo hi →
      ∀ c ∈ utf8_go cp needed lo hi l, is_scalar c := by
  induction l with
  | nil =>
    intro cp needed lo hi _ c hc
    unfold utf8_go at hc
    split at hc
    · cases hc
    · rcases List.mem_singleton.mp hc with rfl
      decide
  | cons b rest ih =>
    intro cp needed lo hi hst c hc
    unfold utf8_go at hc
    by_cases hn : needed = 0
    · rw [if_pos hn] at hc
      exact utf8_step0_scalar b rest ih c hc
    · rw [if_neg hn] at hc
      by_cases hrange : lo ≤ b ∧ b ≤ hi
      · rw [if_pos hrange] at hc
        by_cases h1 : needed = 1
        · subst h1
          rw [if_pos rfl] at hc
          rcases List.mem_cons.mp hc with rfl | hc'
          · exact hst b hrange.1 hrange.2
          · exact ih 0 0 0x80 0xBF trivial c hc'
        · rw [if_neg h1] at hc
          obtain ⟨m, rfl⟩ : ∃ m, needed = m + 2 := ⟨needed - 2, by omega⟩
          have hstep : state_ok (cp * 0x40 + (b - 0x80)) (m + 1) 0x80 0xBF :=
            hst b hrange.1 hrange.2
          have harith : m + 2 - 1 = m + 1 := by omega
          rw [harith] at hc
          exact ih _ _ _ _ hstep c hc
      · rw [if_neg hrange] at hc
        rcases List.mem_cons.mp hc with rfl | hc'
        · decide
        · exact utf8_step0_scalar b rest ih c hc'

theorem utf8_decode_scalar (buffer : List Nat) :
    ∀ c ∈ utf8_decode buffer, is_scalar c :=
  utf8_go_scalar buffer 0 0 0x80 0xBF trivial

/-- Invariant on the UTF-16 decoder state: any pending lead surrogate is in
the lead-surrogate range, any pending lead byte is a byte. -/
def u16_state_ok (leadSur leadByte : Option Nat) : Prop :=
  (∀ x, leadSur = some x → 0xD800 ≤ x ∧ x < 0xDC00) ∧
    (∀ x, leadByte = some x → x < 256)

theorem u16_state_ok_none : u16_state_ok none none := by
  constructor
  · intro x hx
    cases hx
  · intro x hx
    cases hx

theorem u16_state_ok_sur (cu : Nat) (h1 : 0xD800 ≤ cu) (h2 : cu < 0xDC00) :
    u16_state_ok (some cu) none := by
  constructor
  · intro x hx
    injection hx with hx'
    omega
  · intro x hx
    cases hx

theorem u16_state_ok_byte (ls : Option Nat)
    (hls : ∀ x, ls = some x → 0xD800 ≤ x ∧ x < 0xDC00) (b : Nat)
    (hb : b < 256) : u16_state_ok ls (some b) := by
  constructor
  · exact hls
  · intro x hx
    injection hx with hx'
    omega

theorem utf16_unit_scalar (le : Bool) (cu : Nat) (rest : List Nat)
    (hcu : cu < 0x10000)
    (ihrest : ∀ ls lb, u16_state_ok ls lb →
      ∀ c ∈ utf16_go le ls lb rest, is_scalar c)
    (c : Nat)
    (hc : c ∈ (if 0xD800 ≤ cu ∧ cu < 0xDC00 then utf16_go le (some cu) none rest
      else if 0xDC00 ≤ cu ∧ cu < 0xE000 then
        0xFFFD :: utf16_go le none none rest
      else cu :: utf16_go le none none rest)) :
    is_scalar c := by
  by_cases hlead : 0xD800 ≤ cu ∧ cu < 0xDC00
  · rw [if_pos hlead] at hc
    exact ihrest (some cu) none (u16_state_ok_sur cu hlead.1 hlead.2) c hc
  · rw [if_neg hlead] at hc
    by_cases htrail : 0xDC00 ≤ cu ∧ cu < 0xE000
    · rw [if_pos htrail] at hc
      rcases List.mem_cons.mp hc with rfl | hc'
      · decide
      · exact ihrest none none u16_state_ok_none c hc'
    · rw [if_neg htrail] at hc
      rcases List.mem_cons.mp hc with rfl | hc'
      · exact ⟨by omega, by omega⟩
      · exact ihrest none none u16_state_ok_none c hc'

theorem utf16_pair_scalar (le : Bool) (ls cu : Nat) (rest : List Nat)
    (hls : 0xD800 ≤ ls ∧ ls < 0xDC00) (hcu : cu < 0x10000)
    (ihrest : ∀ ls lb, u16_state_ok ls lb →
      ∀ c ∈ utf16_go le ls lb rest, is_scalar c)
    (c : Nat)
    (hc : c ∈ (if 0xDC00 ≤ cu ∧ cu < 0xE000 then
        (0x10000 + (ls - 0xD800) * 0x400 + (cu - 0xDC00)) ::
          utf16_go le none none rest
      else
        0xFFFD ::
          (if 0xD800 ≤ cu ∧ cu < 0xDC00 then utf16_go le (some cu) none rest
          else if 0xDC00 ≤ cu ∧ cu < 0xE000 then
            0xFFFD :: utf16_go le none none rest
          else cu :: utf16_go le none none rest))) :
    is_scalar c := by
  by_cases htrail : 0xDC00 ≤ cu ∧ cu < 0xE000
  · rw [if_pos htrail] at hc
    rcases List.mem_cons.mp hc with h | hc'
    · rw [h]
      exact ⟨by omega, by omega⟩
    · exact ihrest none none u16_state_ok_none c hc'
  · rw [if_neg htrail] at hc
    rcases List.mem_cons.mp hc with h | hc'
    · rw [h]
      decide
    · exact utf16_unit_scalar le cu rest hcu ihrest c hc'

theorem utf16_go_scalar (le : Bool) (l : List Nat) :
    (∀ b ∈ l, b < 256) → ∀ ls lb, u16_state_ok ls lb →
      ∀ c ∈ utf16_go le ls lb l, is_scalar c := by
  induction l with
  | nil =>
    intro _ ls lb _ c hc
    rcases ls with _ | x <;> rcases lb with _ | y <;> unfold utf16_go at hc
    · cases hc
    all_goals
      rcases List.mem_singleton.mp hc with rfl
      decide
  | cons b rest ih =>
    intro hbytes ls lb hst c hc
    have hb : b < 256 := hbytes b (List.mem_cons_self b rest)
    have hbytes' : ∀ x ∈ rest, x < 256 :=
      fun x hx => hbytes x (List.mem_cons_of_mem b hx)
    have ihrest : ∀ ls lb, u16_state_ok ls lb →
        ∀ c ∈ utf16_go le ls lb rest, is_scalar c := ih hbytes'
    cases lb with
    | none =>
      cases ls with
      | none =>
        unfold utf16_go at hc
        exact ihrest none (some b) (u16_state_ok_byte none hst.1 b hb) c hc
      | some lsv =>
        unfold utf16_go at hc
        exact ihrest (some lsv) (some b) (u16_state_ok_byte _ hst.1 b hb) c hc
    | some lbv =>
      have hlbv : lbv < 256 := hst.2 lbv rfl
      have hcu : (if le then lbv + 256 * b else 256 * lbv + b) < 0x10000 := by
        split <;> omega
      cases ls with
      | none =>
        unfold utf16_go at hc
        exact utf16_unit_scalar le _ rest hcu ihrest c hc
      | some lsv =>
        have hlsv := hst.1 lsv rfl
        unfold utf16_go at hc
        exact utf16_pair_scalar le lsv _ rest hlsv hcu ihrest c hc

theorem utf16_decode_scalar (le : Bool) (buffer : List Nat)
    (hb : ∀ b ∈ buffer, b < 256) :
    ∀ c ∈ utf16_decode le buffer, is_scalar c :=
  utf16_go_scalar le buffer hb none none u16_state_ok_none

theorem decode_with_scalar (e : Enc) (buffer : List Nat)
    (hb : ∀ b ∈ buffer, b < 256) :
    ∀ c ∈ decode_with e buffer, is_scalar c := by
  cases e with
  | utf8 => exact utf8_decode_scalar buffer
  | utf16le => exact utf16_decode_scalar true buffer hb
  | utf16be => exact utf16_decode_scalar false buffer hb
  | windows1252 => exact windows1252_decode_scalar buffer hb

theorem encoding_decode_scalar (enc : Enc) (bytes : List Nat)
    (hb : ∀ b ∈ bytes, b < 256) :
    ∀ c ∈ encoding_decode enc bytes, is_scalar c := by
  unfold encoding_decode
  cases hf : for_bom bytes with
  | some pr =>
    obtain ⟨enc2, bom_length⟩ := pr
    exact decode_with_scalar _ _
      (fun b hbm => hb b (List.mem_of_mem_drop hbm))
  | none => exact decode_with_scalar _ _ hb

theorem decode_buffer_scalar (buffer : List Nat)
    (hb : ∀ b ∈ buffer, b < 256) :
    ∀ c ∈ decode_buffer buffer, is_scalar c := by
  unfold decode_buffer
  exact encoding_decode_scalar _ _
    (fun b hbm => hb b (List.mem_of_mem_drop hbm))

/-! ### Lemmas about BOM detection -/

theorem starts_with_take (pat : List Nat) :
    ∀ (buffer : List Nat) (k : Nat), pat.length ≤ k →
      starts_with (buffer.take k) pat = starts_with buffer pat := by
  induction pat with
  | nil =>
    intro buffer k _
    rfl
  | cons p ps ih =>
    intro buffer k hk
    cases buffer with
    | nil => cases k <;> rfl
    | cons b bs =>
      cases k with
      | zero => simp at hk
      | succ k' =>
        rw [List.take_succ_cons]
        show (b == p && starts_with (bs.take k') ps) =
          (b == p && starts_with bs ps)
        rw [ih bs k' (by simpa using hk)]

theorem for_bom_take (buffer : List Nat) (k : Nat) (hk : 3 ≤ k) :
    for_bom (buffer.take k) = for_bom buffer := by
  unfold for_bom
  rw [starts_with_take _ buffer k (by simp; omega),
    starts_with_take _ buffer k (by simp; omega),
    starts_with_take _ buffer k (by simp; omega)]

theorem detect_encoding_eq (buffer : List Nat) :
    detect_encoding buffer = (for_bom buffer).getD (Enc.windows1252, 0) := by
  unfold detect_encoding
  by_cases h : buffer.length ≤ 4096
  · rw [min_eq_right h, List.take_length]
  · rw [for_bom_take buffer _ (by omega : 3 ≤ min 4096 buffer.length)]

theorem for_bom_utf8 (rest : List Nat) :
    for_bom (0xEF :: 0xBB :: 0xBF :: rest) = some (Enc.utf8, 3) := rfl

theorem for_bom_utf16le (rest : List Nat) :
    for_bom (0xFF :: 0xFE :: rest) = some (Enc.utf16le, 2) := rfl

theorem for_bom_utf16be (rest : List Nat) :
    for_bom (0xFE :: 0xFF :: rest) = some (Enc.utf16be, 2) := rfl

theorem for_bom_none (buffer : List Nat)
    (h1 : starts_with buffer [0xEF, 0xBB, 0xBF] = false)
    (h2 : starts_with buffer [0xFF, 0xFE] = false)
    (h3 : starts_with buffer [0xFE, 0xFF] = false) :
    for_bom buffer = none := by
  unfold for_bom
  rw [h1, h2, h3]
  simp

theorem encoding_decode_no_bom (enc : Enc) (bytes : List Nat)
    (h : for_bom bytes = none) :
    encoding_decode enc bytes = decode_with enc bytes := by
  unfold encoding_decode
  rw [h]

theorem encoding_decode_second_bom (enc enc2 : Enc) (bytes : List Nat)
    (bom_length : Nat) (h : for_bom bytes = some (enc2, bom_length)) :
    encoding_decode enc bytes = decode_with enc2 (bytes.drop bom_length) := by
  unfold encoding_decode
  rw [h]

theorem decode_buffer_utf8_bom (rest : List Nat) :
    decode_buffer (0xEF :: 0xBB :: 0xBF :: rest) =
      encoding_decode Enc.utf8 rest := by
  unfold decode_buffer
  rw [detect_encoding_eq, for_bom_utf8]
  rfl

theorem decode_buffer_utf16le_bom (rest : List Nat) :
    decode_buffer (0xFF :: 0xFE :: rest) =
      encoding_decode Enc.utf16le rest := by
  unfold decode_buffer
  rw [detect_encoding_eq, for_bom_utf16le]
  rfl

theorem decode_buffer_utf16be_bom (rest : List Nat) :
    decode_buffer (0xFE :: 0xFF :: rest) =
      encoding_decode Enc.utf16be rest := by
  unfold decode_buffer
  rw [detect_encoding_eq, for_bom_utf16be]
  rfl

theorem decode_buffer_no_bom (buffer : List Nat)
    (h1 : starts_with buffer [0xEF, 0xBB, 0xBF] = false)
    (h2 : starts_with buffer [0xFF, 0xFE] = false)
    (h3 : starts_with buffer [0xFE, 0xFF] = false) :
    decode_buffer buffer = windows1252_decode buffer := by
  unfold decode_buffer
  rw [detect_encoding_eq, for_bom_none buffer h1 h2 h3]
  show encoding_decode Enc.windows1252 (buffer.drop 0) = _
  rw [List.drop_zero,
    encoding_decode_no_bom Enc.windows1252 buffer
      (for_bom_none buffer h1 h2 h3)]
  rfl

/-! ### Lemmas about the compilation cache -/

theorem compile_loop_cons_hit (build : List Nat → Bool → Except Nat Regex)
    (ignore_case : Bool) (p : List Nat) (ps : List (List Nat))
    (cache : List ((List Nat × Bool) × Regex)) (r : Regex)
    (hl : lookup_cache cache (p, ignore_case) = some r) :
    compile_loop build (p :: ps) ignore_case cache =
      match compile_loop build ps ignore_case cache with
      | Except.ok (rs, built) => Except.ok (r :: rs, built)
      | Except.error e => Except.error e := by
  conv_lhs => rw [compile_loop]
  rw [hl]

theorem compile_loop_cons_miss (build : List Nat → Bool → Except Nat Regex)
    (ignore_case : Bool) (p : List Nat) (ps : List (List Nat))
    (cache : List ((List Nat × Bool) × Regex)) (r : Regex)
    (hl : lookup_cache cache (p, ignore_case) = none)
    (hb : build p ignore_case = Except.ok r) :
    compile_loop build (p :: ps) ignore_case cache =
      match compile_loop build ps ignore_case
          (((p, ignore_case), r) :: cache) with
      | Except.ok (rs, built) =>
        Except.ok (r :: rs, (p, ignore_case) :: built)
      | Except.error e => Except.error e := by
  conv_lhs => rw [compile_loop]
  rw [hl, hb]

theorem compile_loop_cons_builderr (build : List Nat → Bool → Except Nat Regex)
    (ignore_case : Bool) (p : List Nat) (ps : List (List Nat))
    (cache : List ((List Nat × Bool) × Regex)) (e : Nat)
    (hl : lookup_cache cache (p, ignore_case) = none)
    (hb : build p ignore_case = Except.error e) :
    compile_loop build (p :: ps) ignore_case cache = Except.error e := by
  conv_lhs => rw [compile_loop]
  rw [hl, hb]

theorem compile_loop_eq_no_cache (build : List Nat → Bool → Except Nat Regex)
    (ignore_case : Bool) :
    ∀ (ps : List (List Nat)) (cache : List ((List Nat × Bool) × Regex)),
      (∀ p r, lookup_cache cache (p, ignore_case) = some r →
        build p ignore_case = Except.ok r) →
      (match compile_loop build ps ignore_case cache with
        | Except.ok (rs, _) => Except.ok rs
        | Except.error e => Except.error e) =
        compile_regex_no_cache build ps ignore_case := by
  intro ps
  induction ps with
  | nil => intro cache _; rfl
  | cons p ps ih =>
    intro cache hcons
    cases hl : lookup_cache cache (p, ignore_case) with
    | some r =>
      have hbuild := hcons p r hl
      have hihs := ih cache hcons
      rw [compile_loop_cons_hit build ignore_case p ps cache r hl]
      conv_rhs => rw [compile_regex_no_cache]
      rw [hbuild, ← hihs]
      cases compile_loop build ps ignore_case cache with
      | ok pair => rfl
      | error e => rfl
    | none =>
      cases hb : build p ignore_case with
      | error e =>
        rw [compile_loop_cons_builderr build ignore_case p ps cache e hl hb]
        conv_rhs => rw [compile_regex_no_cache]
        rw [hb]
      | ok r =>
        have hcons' : ∀ q r',
            lookup_cache (((p, ignore_case), r) :: cache) (q, ignore_case) =
              some r' → build q ignore_case = Except.ok r' := by
          intro q r' hq
          unfold lookup_cache at hq
          by_cases hkey : ((p, ignore_case) : List Nat × Bool) =
              (q, ignore_case)
          · rw [if_pos hkey] at hq
            injection hq with hq'
            have hpq : p = q := congrArg Prod.fst hkey
            rw [← hpq, hb, hq']
          · rw [if_neg hkey] at hq
            exact hcons q r' hq
        have hihs := ih (((p, ignore_case), r) :: cache) hcons'
        rw [compile_loop_cons_miss build ignore_case p ps cache r hl hb]
        conv_rhs => rw [compile_regex_no_cache]
        rw [hb, ← hihs]
        cases compile_loop build ps ignore_case
            (((p, ignore_case), r) :: cache) with
        | ok pair => rfl
        | error e => rfl

theorem compile_with_cache_eq_no_cache
    (build : List Nat → Bool → Except Nat Regex)
    (patterns : List (List Nat)) (ignore_case : Bool) :
    compile_regex_with_cache build patterns ignore_case =
      compile_regex_no_cache build patterns ignore_case := by
  unfold compile_regex_with_cache
  exact compile_loop_eq_no_cache build ignore_case patterns []
    (fun p r h => by cases h)

theorem compile_loop_built_spec (build : List Nat → Bool → Except Nat Regex)
    (ignore_case : Bool) :
    ∀ (ps : List (List Nat)) (cache : List ((List Nat × Bool) × Regex))
      (rs : List Regex) (built : List (List Nat × Bool)),
      compile_loop build ps ignore_case cache = Except.ok (rs, built) →
      built.Nodup ∧ ∀ k ∈ built, lookup_cache cache k = none ∧
        k.2 = ignore_case ∧ k.1 ∈ ps := by
  intro ps
  induction ps with
  | nil =>
    intro cache rs built h
    unfold compile_loop at h
    injection h with h'
    injection h' with h1 h2
    rw [← h2]
    exact ⟨List.nodup_nil, by simp⟩
  | cons p ps ih =>
    intro cache rs built h
    cases hl : lookup_cache cache (p, ignore_case) with
    | some r =>
      rw [compile_loop_cons_hit build ignore_case p ps cache r hl] at h
      cases hrec : compile_loop build ps ignore_case cache with
      | ok pair =>
        rw [hrec] at h
        obtain ⟨rs', built'⟩ := pair
        injection h with h'
        injection h' with h1 h2
        obtain ⟨hnd, hmem⟩ := ih cache rs' built' hrec
        rw [← h2]
        exact ⟨hnd, fun k hk =>
          ⟨(hmem k hk).1, (hmem k hk).2.1,
            List.mem_cons_of_mem p (hmem k hk).2.2⟩⟩
      | error e =>
        rw [hrec] at h
        exact Except.noConfusion h
    | none =>
      cases hb : build p ignore_case with
      | error e =>
        rw [compile_loop_cons_builderr build ignore_case p ps cache e hl hb]
          at h
        exact Except.noConfusion h
      | ok r =>
        rw [compile_loop_cons_miss build ignore_case p ps cache r hl hb] at h
        cases hrec : compile_loop build ps ignore_case
            (((p, ignore_case), r) :: cache) with
        | ok pair =>
          rw [hrec] at h
          obtain ⟨rs', built'⟩ := pair
          injection h with h'
          injection h' with h1 h2
          obtain ⟨hnd, hmem⟩ := ih _ rs' built' hrec
          rw [← h2]
          constructor
          · rw [List.nodup_cons]
            refine ⟨fun hin => ?_, hnd⟩
            have := (hmem _ hin).1
            unfold lookup_cache at this
            rw [if_pos rfl] at this
            cases this
          · intro k hk
            rcases List.mem_cons.mp hk with rfl | hk'
            · exact ⟨hl, rfl, List.mem_cons_self p ps⟩
            · have h3 := hmem k hk'
              refine ⟨?_, h3.2.1, List.mem_cons_of_mem p h3.2.2⟩
              have h4 := h3.1
              unfold lookup_cache at h4
              by_cases hkey : ((p, ignore_case) : List Nat × Bool) = k
              · rw [if_pos hkey] at h4
                cases h4
              · rw [if_neg hkey] at h4
                exact h4
        | error e =>
          rw [hrec] at h
          exact Except.noConfusion h

theorem compile_no_cache_get (build : List Nat → Bool → Except Nat Regex)
    (ignore_case : Bool) :
    ∀ (ps : List (List Nat)) (rs : List Regex),
      compile_regex_no_cache build ps ignore_case = Except.ok rs →
      rs.length = ps.length ∧ ∀ i (hip : i < ps.length) (hir : i < rs.length),
        build (ps.get ⟨i, hip⟩) ignore_case =
          Except.ok (rs.get ⟨i, hir⟩) := by
  intro ps
  induction ps with
  | nil =>
    intro rs h
    injection h with h'
    rw [← h']
    exact ⟨rfl, fun i hip _ => absurd hip (by simp)⟩
  | cons p ps ih =>
    intro rs h
    unfold compile_regex_no_cache at h
    cases hb : build p ignore_case with
    | error e =>
      rw [hb] at h
      cases h
    | ok r =>
      rw [hb] at h
      cases hrec : compile_regex_no_cache build ps ignore_case with
      | ok rs' =>
        rw [hrec] at h
        injection h with h'
        obtain ⟨hlen, hget⟩ := ih rs' hrec
        rw [← h']
        constructor
        · simp [hlen]
        · intro i hip hir
          cases i with
          | zero => simpa using hb
          | succ i' =>
            have hip' : i' < ps.length := by simp at hip; omega
            have hir' : i' < rs'.length := by omega
            simpa using hget i' hip' hir'
      | error e =>
        rw [hrec] at h
        cases h

/-! ### Lemmas about the parallel scan -/

theorem scan_files_perm (regexes : List Regex)
    (read_file : List Nat → Option (List Nat))
    (files files' : List (List Nat)) (h : files.Perm files') :
    (scan_files regexes read_file files : Multiset SearchResult) =
      (scan_files regexes read_file files' : Multiset SearchResult) := by
  exact Multiset.coe_eq_coe.mpr (h.flatMap_right _)

/-! ### ASCII pattern-file helpers -/

theorem windows1252_decode_ascii (text : List Nat)
    (h : ∀ b ∈ text, b < 0x80) : windows1252_decode text = text := by
  induction text with
  | nil => rfl
  | cons b bs ih =>
    have hmap : windows1252_map b = b := by
      unfold windows1252_map
      rw [if_pos (h b (List.mem_cons_self b bs))]
    show windows1252_map b :: windows1252_decode bs = b :: bs
    rw [hmap, ih fun x hx => h x (List.mem_cons_of_mem b hx)]

theorem mk_text_bytes_lt (ls : List (List Nat)) :
    ∀ (ts : List Bool), (∀ l ∈ ls, ∀ c ∈ l, c < 0x80) →
      ∀ b ∈ mk_text ls ts, b < 0x80 := by
  induction ls with
  | nil =>
    intro ts _ b hb
    cases ts <;> cases hb
  | cons l ls ih =>
    intro ts hascii b hb
    cases ts with
    | nil => cases hb
    | cons t ts =>
      have hstep : mk_text (l :: ls) (t :: ts) =
          (l ++ line_term t) ++ mk_text ls ts := by
        simp [mk_text]
      rw [hstep] at hb
      rcases List.mem_append.mp hb with hb' | hb'
      · rcases List.mem_append.mp hb' with hb'' | hb''
        · exact hascii l (List.mem_cons_self l ls) b hb''
        · cases t <;> simp [line_term] at hb'' <;> omega
      · exact ih ts (fun x hx => hascii x (List.mem_cons_of_mem l hx)) b hb'

theorem starts_with_high_false (text : List Nat)
    (h : ∀ b ∈ text, b < 0x80) (p : Nat) (hp : 0x80 ≤ p) (ps : List Nat) :
    starts_with text (p :: ps) = false := by
  cases text with
  | nil => rfl
  | cons b bs =>
    show (b == p && starts_with_go ps bs) = false
    have hbp : b ≠ p := by
      have := h b (List.mem_cons_self b bs)
      omega
    simp [hbp]

/-! ### Concrete objects used by witnesses and counterexamples -/

instance (l : List Nat) : Decidable (good_line l) := by
  unfold good_line
  infer_instance

/-- A concrete matcher for the literal pattern "a" (97): matches any line
containing 97. -/
def re_a : Regex := ⟨[97], fun l => l.contains 97⟩

/-- A concrete matcher for the literal pattern "b" (98): matches any line
containing 98. -/
def re_b : Regex := ⟨[98], fun l => l.contains 98⟩

/-- A concrete always-successful regex builder. -/
def build0 : List Nat → Bool → Except Nat Regex :=
  fun p _ => Except.ok ⟨p, fun _ => false⟩

/-! ### The claims -/

/-- C1: for every decoded text and ordered matcher list, a line satisfying
at least one matcher yields exactly one record for that line number, whose
pattern is the first satisfying matcher in caller-supplied order (no earlier
matcher satisfies the line), and a line satisfying no matcher yields no
record. -/
theorem search_first_match_wins (path : List Nat) (rs : List Regex)
    (decoded : List Nat) (i : Nat)
    (hi : i < (str_lines decoded).length) :
    ((∃ re ∈ rs, re.is_match ((str_lines decoded).get ⟨i, hi⟩) = true) →
      ∃ k, ∃ hk : k < rs.length,
        (rs.get ⟨k, hk⟩).is_match ((str_lines decoded).get ⟨i, hi⟩) = true ∧
        (∀ j (hj : j < rs.length), j < k →
          (rs.get ⟨j, hj⟩).is_match ((str_lines decoded).get ⟨i, hi⟩) =
            false) ∧
        (search_decoded path rs decoded).filter
            (fun r => r.line_number == i + 1) =
          [{ path := path, line_number := i + 1,
             line := (str_lines decoded).get ⟨i, hi⟩,
             pattern := (rs.get ⟨k, hk⟩).as_str }]) ∧
    ((∀ re ∈ rs, re.is_match ((str_lines decoded).get ⟨i, hi⟩) = false) →
      (search_decoded path rs decoded).filter
          (fun r => r.line_number == i + 1) = []) := by
  have hfilter := match_lines_filter path rs (str_lines decoded) 0 i hi
  rw [Nat.zero_add] at hfilter
  constructor
  · intro hex
    obtain ⟨re, hfm⟩ := first_matching_is_some rs _ hex
    obtain ⟨k, hk, hget, hmatch, hprev⟩ := first_matching_spec rs _ re hfm
    refine ⟨k, hk, by rw [hget]; exact hmatch, hprev, ?_⟩
    unfold search_decoded
    rw [hfilter, hfm, hget]
  · intro hnone
    unfold search_decoded
    rw [hfilter, first_matching_none rs _ hnone]

/-- C1 witness: on the decoded text "ab\nc" with matchers for "a" then "b"
(both satisfy line 1), the single record for line 1 carries the first
pattern. -/
theorem search_first_match_wins_witness :
    ∃ k, ∃ hk : k < ([re_a, re_b] : List Regex).length,
      (([re_a, re_b] : List Regex).get ⟨k, hk⟩).is_match
        ((str_lines [97, 98, 10, 99]).get ⟨0, by decide⟩) = true ∧
      (∀ j (hj : j < ([re_a, re_b] : List Regex).length), j < k →
        (([re_a, re_b] : List Regex).get ⟨j, hj⟩).is_match
          ((str_lines [97, 98, 10, 99]).get ⟨0, by decide⟩) = false) ∧
      (search_decoded [112] [re_a, re_b] [97, 98, 10, 99]).filter
          (fun r => r.line_number == 0 + 1) =
        [{ path := [112], line_number := 0 + 1,
           line := (str_lines [97, 98, 10, 99]).get ⟨0, by decide⟩,
           pattern := (([re_a, re_b] : List Regex).get ⟨k, hk⟩).as_str }] :=
  (search_first_match_wins [112] [re_a, re_b] [97, 98, 10, 99] 0
    (by decide)).1 ⟨re_a, List.mem_cons_self re_a [re_b], by decide⟩

/-- C3: splitting a text assembled from well-formed lines, each closed by
either terminator convention, recovers exactly those lines (the trailing
empty fragment after the final terminator is not an extra line), and every
record of the matching phase carries a 1-based line number equal to the
line's position, with the line text free of terminator characters. -/
theorem line_split_and_numbering (ls : List (List Nat)) (ts : List Bool)
    (hlen : ls.length = ts.length) (hgood : ∀ l ∈ ls, good_line l)
    (path : List Nat) (rs : List Regex) :
    str_lines (mk_text ls ts) = ls ∧
    ∀ r ∈ search_decoded path rs (mk_text ls ts),
      ∃ i, ∃ hi : i < ls.length, r.line_number = i + 1 ∧
        r.line = ls.get ⟨i, hi⟩ := by
  have hsplit := str_lines_mk_text ls ts hlen hgood
  refine ⟨hsplit, ?_⟩
  intro r hr
  unfold search_decoded at hr
  rw [hsplit] at hr
  obtain ⟨i, hi, h1, h2, _⟩ := match_lines_mem_spec path rs ls 0 r hr
  exact ⟨i, hi, by omega, h2⟩

/-- C3 witness: the text "a\r\n\nb\r\n" splits into the lines "a", "", "b"
with the terminators stripped and no trailing extra line. -/
theorem line_split_and_numbering_witness :
    str_lines (mk_text [[97], [], [98]] [true, false, true]) =
      [[97], [], [98]] :=
  (line_split_and_numbering [[97], [], [98]] [true, false, true]
    (by decide) (by decide) [112] []).1

/-- C10: a carriage return not followed by a line feed is not a line
boundary: a non-empty text containing no line feed is one single line, with
any carriage returns left embedded in the recorded line text. -/
theorem cr_only_single_line (s : List Nat) (hne : s ≠ []) (hnl : 10 ∉ s) :
    str_lines s = [s] :=
  str_lines_no_lf s hne hnl

/-- C10 witness: "a\rb\r" is processed as the single line "a\rb\r". -/
theorem cr_only_single_line_witness :
    str_lines [97, 13, 98, 13] = [[97, 13, 98, 13]] :=
  cr_only_single_line [97, 13, 98, 13] (by decide) (by decide)

/-- C2 counterexample: the file EF BB BF FF FE 61 00 begins with the UTF-8
mark, yet the program does not decode the remainder as UTF-8:
`encoding.decode` re-sniffs the remainder, finds the UTF-16LE mark FF FE,
strips it and decodes "a" via UTF-16LE instead. -/
theorem second_bom_overrides_first_cex :
    decode_buffer [0xEF, 0xBB, 0xBF, 0xFF, 0xFE, 0x61, 0x00] = [0x61] ∧
    utf8_decode [0xFF, 0xFE, 0x61, 0x00] =
      [0xFFFD, 0xFFFD, 0x61, 0x00] ∧
    decode_buffer [0xEF, 0xBB, 0xBF, 0xFF, 0xFE, 0x61, 0x00] ≠
      utf8_decode [0xFF, 0xFE, 0x61, 0x00] := by
  refine ⟨rfl, rfl, ?_⟩
  decide

/-- C2 amended: BOM detection (on a prefix capped at 4096 bytes) selects
UTF-8, then UTF-16LE, then UTF-16BE, with windows-1252 and no stripping as
the no-mark fallback; a marked file has the mark stripped and the remainder
decoded with the mark's encoding, unless that remainder itself begins with
a recognized mark, in which case `encoding.decode`'s own BOM sniffing
strips the second mark and uses its encoding instead; in all cases the
decode step is total and yields only Unicode scalar values, for arbitrary
byte input. -/
theorem decode_detection_and_totality (buffer : List Nat)
    (hbytes : ∀ b ∈ buffer, b < 256) :
    (starts_with buffer [0xEF, 0xBB, 0xBF] = true →
      detect_encoding buffer = (Enc.utf8, 3)) ∧
    (starts_with buffer [0xEF, 0xBB, 0xBF] = false →
      starts_with buffer [0xFF, 0xFE] = true →
      detect_encoding buffer = (Enc.utf16le, 2)) ∧
    (starts_with buffer [0xEF, 0xBB, 0xBF] = false →
      starts_with buffer [0xFF, 0xFE] = false →
      starts_with buffer [0xFE, 0xFF] = true →
      detect_encoding buffer = (Enc.utf16be, 2)) ∧
    (starts_with buffer [0xEF, 0xBB, 0xBF] = false →
      starts_with buffer [0xFF, 0xFE] = false →
      starts_with buffer [0xFE, 0xFF] = false →
      detect_encoding buffer = (Enc.windows1252, 0)) ∧
    (starts_with buffer [0xEF, 0xBB, 0xBF] = false →
      starts_with buffer [0xFF, 0xFE] = false →
      starts_with buffer [0xFE, 0xFF] = false →
      decode_buffer buffer = windows1252_decode buffer) ∧
    (∀ rest, buffer = 0xEF :: 0xBB :: 0xBF :: rest → for_bom rest = none →
      decode_buffer buffer = utf8_decode rest) ∧
    (∀ rest, buffer = 0xFF :: 0xFE :: rest → for_bom rest = none →
      decode_buffer buffer = utf16_decode true rest) ∧
    (∀ rest, buffer = 0xFE :: 0xFF :: rest → for_bom rest = none →
      decode_buffer buffer = utf16_decode false rest) ∧
    (∀ rest enc2 bom_length, buffer = 0xEF :: 0xBB :: 0xBF :: rest →
      for_bom rest = some (enc2, bom_length) →
      decode_buffer buffer = decode_with enc2 (rest.drop bom_length)) ∧
    (∀ c ∈ decode_buffer buffer, is_scalar c) := by
  refine ⟨?_, ?_, ?_, ?_, decode_buffer_no_bom buffer, ?_, ?_, ?_, ?_,
    decode_buffer_scalar buffer hbytes⟩
  · intro h1
    rw [detect_encoding_eq]
    unfold for_bom
    rw [h1]
    rfl
  · intro h1 h2
    rw [detect_encoding_eq]
    unfold for_bom
    rw [h1, h2]
    rfl
  · intro h1 h2 h3
    rw [detect_encoding_eq]
    unfold for_bom
    rw [h1, h2, h3]
    rfl
  · intro h1 h2 h3
    rw [detect_encoding_eq, for_bom_none buffer h1 h2 h3]
    rfl
  · intro rest heq hnone
    rw [heq, decode_buffer_utf8_bom rest,
      encoding_decode_no_bom Enc.utf8 rest hnone]
    rfl
  · intro rest heq hnone
    rw [heq, decode_buffer_utf16le_bom rest,
      encoding_decode_no_bom Enc.utf16le rest hnone]
    rfl
  · intro rest heq hnone
    rw [heq, decode_buffer_utf16be_bom rest,
      encoding_decode_no_bom Enc.utf16be rest hnone]
    rfl
  · intro rest enc2 bom_length heq hsome
    rw [heq, decode_buffer_utf8_bom rest,
      encoding_decode_second_bom Enc.utf8 enc2 rest bom_length hsome]

/-- C2 amended witness: the UTF-16LE-marked file FF FE 61 00 (no second
mark in the remainder) decodes as UTF-16LE of the remainder. -/
theorem decode_detection_and_totality_witness :
    decode_buffer [0xFF, 0xFE, 0x61, 0x00] =
      utf16_decode true [0x61, 0x00] :=
  (decode_detection_and_totality [0xFF, 0xFE, 0x61, 0x00]
    (by decide)).2.2.2.2.2.2.1 [0x61, 0x00] rfl (by decide)

/-- C9: the leading byte-order-mark bytes are stripped before decoding and
are not part of the decoded text: the decoded content of a marked file is
a function of the remainder past the mark alone, under `encoding.decode`
(which may strip a second mark from that remainder, see C2); for an
ordinary marked file whose remainder carries no second mark the text is
the plain decoding of the remainder, and matching runs on that mark-free
text, so the mark never appears in line 1 and cannot influence matching
there. -/
theorem bom_stripped_before_decode (rest : List Nat) :
    decode_buffer (0xEF :: 0xBB :: 0xBF :: rest) =
      encoding_decode Enc.utf8 rest ∧
    decode_buffer (0xFF :: 0xFE :: rest) =
      encoding_decode Enc.utf16le rest ∧
    decode_buffer (0xFE :: 0xFF :: rest) =
      encoding_decode Enc.utf16be rest ∧
    (for_bom rest = none →
      decode_buffer (0xEF :: 0xBB :: 0xBF :: rest) = utf8_decode rest) ∧
    ∀ path rs, search_in_file_streaming path rs
        (0xEF :: 0xBB :: 0xBF :: rest) =
      search_decoded path rs (encoding_decode Enc.utf8 rest) := by
  refine ⟨decode_buffer_utf8_bom rest, decode_buffer_utf16le_bom rest,
    decode_buffer_utf16be_bom rest, ?_, ?_⟩
  · intro hnone
    rw [decode_buffer_utf8_bom rest,
      encoding_decode_no_bom Enc.utf8 rest hnone]
    rfl
  · intro path rs
    unfold search_in_file_streaming
    rw [decode_buffer_utf8_bom rest]

/-- C9 witness: for the UTF-8-marked file EF BB BF 61 the mark is stripped
and the decoded text is the UTF-8 decoding of the remaining byte alone. -/
theorem bom_stripped_before_decode_witness :
    decode_buffer [0xEF, 0xBB, 0xBF, 0x61] = utf8_decode [0x61] :=
  (bom_stripped_before_decode [0x61]).2.2.2.1 (by decide)

/-- C4: the aggregated scan output is, as an unordered multiset of records,
independent of the order in which the per-file batches complete: any
completion order (a permutation of the worklist, each file contributing its
batch exactly once under the mutex) yields the same multiset as the 1-worker
enumeration order — no record lost or duplicated. -/
theorem scan_multiset_eq_of_perm (regexes : List Regex)
    (read_file : List Nat → Option (List Nat))
    (files completed : List (List Nat)) (hperm : files.Perm completed) :
    (scan_files regexes read_file files : Multiset SearchResult) =
      (scan_files regexes read_file completed : Multiset SearchResult) :=
  Multiset.coe_eq_coe.mpr (hperm.flatMap_right _)

/-- C4 witness: two files processed in swapped completion order give the
same result multiset. -/
theorem scan_multiset_eq_of_perm_witness :
    (scan_files [re_a] (fun p => some p) [[97], [98]] :
        Multiset SearchResult) =
      (scan_files [re_a] (fun p => some p) [[98], [97]] :
        Multiset SearchResult) :=
  scan_multiset_eq_of_perm [re_a] (fun p => some p) [[97], [98]]
    [[98], [97]] (by decide)

/-- C5 counterexample: a UTF-8 file containing the invalid byte FF in line 1
is not skipped: the malformed sequence is replaced by U+FFFD and line 1
still produces a Match, contradicting the claim that such a line produces
no Match and is absent from the results. -/
theorem malformed_line_not_skipped_cex :
    search_in_file_streaming [112] [re_a]
        [0xEF, 0xBB, 0xBF, 97, 255, 10, 97] =
      [{ path := [112], line_number := 1, line := [97, 0xFFFD],
         pattern := [97] },
       { path := [112], line_number := 2, line := [97], pattern := [97] }] ∧
    (search_in_file_streaming [112] [re_a]
        [0xEF, 0xBB, 0xBF, 97, 255, 10, 97]).filter
      (fun r => r.line_number == 1) ≠ [] := by
  constructor
  · rfl
  · decide

/-- C5 amended: a malformed byte sequence under the detected encoding is
replaced by U+FFFD replacement characters; the affected line is retained
and still participates in matching: for every raw content, every logical
line of the decoded text satisfying some matcher produces a record at its
line number (no line is ever skipped, and no decode failure exists). -/
theorem malformed_replaced_line_retained (path : List Nat) (rs : List Regex)
    (buffer : List Nat) (i : Nat)
    (hi : i < (str_lines (decode_buffer buffer)).length)
    (hmatch : ∃ re ∈ rs, re.is_match
      ((str_lines (decode_buffer buffer)).get ⟨i, hi⟩) = true) :
    ∃ r ∈ search_in_file_streaming path rs buffer, r.line_number = i + 1 ∧
      r.line = (str_lines (decode_buffer buffer)).get ⟨i, hi⟩ := by
  obtain ⟨re, hfm⟩ := first_matching_is_some rs _ hmatch
  have hfilter :=
    match_lines_filter path rs (str_lines (decode_buffer buffer)) 0 i hi
  rw [hfm] at hfilter
  refine ⟨⟨path, 0 + i + 1,
    (str_lines (decode_buffer buffer)).get ⟨i, hi⟩, re.as_str⟩,
    ?_, by simp, rfl⟩
  unfold search_in_file_streaming search_decoded
  apply List.mem_of_mem_filter (p := fun r => r.line_number == 0 + i + 1)
  rw [hfilter]
  exact List.mem_singleton_self _

/-- C5 amended witness: on the malformed UTF-8 file of the counterexample,
line 1 (the malformed line) still yields a record. -/
theorem malformed_replaced_line_retained_witness :
    ∃ r ∈ search_in_file_streaming [112] [re_a]
        [0xEF, 0xBB, 0xBF, 97, 255, 10, 97],
      r.line_number = 0 + 1 ∧
      r.line = (str_lines (decode_buffer
        [0xEF, 0xBB, 0xBF, 97, 255, 10, 97])).get ⟨0, by decide⟩ :=
  malformed_replaced_line_retained [112] [re_a]
    [0xEF, 0xBB, 0xBF, 97, 255, 10, 97] 0 (by decide)
    ⟨re_a, List.mem_cons_self re_a [], by decide⟩

/-- C6 counterexample: the pattern file content "a\n\nb" yields the three
patterns "a", "" and "b": the interior empty line does contribute a
pattern, contradicting "one pattern per non-empty line". -/
theorem empty_pattern_line_cex :
    read_lines_from_file [97, 10, 10, 98] = [[97], [], [98]] ∧
    [] ∈ read_lines_from_file [97, 10, 10, 98] := by
  constructor
  · rfl
  · decide

/-- C6 amended: loading patterns from a file yields one pattern per logical
line of the decoded pattern source — including an empty pattern for each
interior empty line — with only the trailing empty fragment after a final
terminator contributing nothing. -/
theorem patterns_one_per_line (ls : List (List Nat)) (ts : List Bool)
    (hlen : ls.length = ts.length) (hgood : ∀ l ∈ ls, good_line l)
    (hascii : ∀ l ∈ ls, ∀ c ∈ l, c < 0x80) :
    read_lines_from_file (mk_text ls ts) = ls := by
  unfold read_lines_from_file
  have hbytes := mk_text_bytes_lt ls ts hascii
  rw [decode_buffer_no_bom _
    (starts_with_high_false _ hbytes 0xEF (by omega) _)
    (starts_with_high_false _ hbytes 0xFF (by omega) _)
    (starts_with_high_false _ hbytes 0xFE (by omega) _)]
  rw [windows1252_decode_ascii _ hbytes]
  exact str_lines_mk_text ls ts hlen hgood

/-- C6 amended witness: the pattern file "a\n\nb\n" loads as the three
patterns "a", "" and "b" (the final terminator adds no pattern). -/
theorem patterns_one_per_line_witness :
    read_lines_from_file (mk_text [[97], [], [98]]
      [false, false, false]) = [[97], [], [98]] :=
  patterns_one_per_line [[97], [], [98]] [false, false, false]
    (by decide) (by decide) (by decide)

/-- C7 counterexample: with one supplied path that does not exist (and a
successfully compiling pattern), `run_app` exits with code 1 — the claim
predicted success whenever the invalid list is non-empty, and predicted
that invalid pattern syntax is the only non-zero outcome; and with no paths
at all the run succeeds, where the claim predicted the error case. -/
theorem all_invalid_paths_exit_cex :
    run_app build0 (fun _ => false) (fun v => v) (fun _ => none)
        [[97]] false [[112]] = AppOutcome.exitCode 1 ∧
    run_app build0 (fun _ => false) (fun v => v) (fun _ => none)
        [[97]] false [] = AppOutcome.ok [] ∧
    (compile_regex_with_cache build0 [[97]] false).isOk = true :=
  ⟨rfl, rfl, rfl⟩

/-- C7 amended: when the valid-path list is empty the engine performs no
traversal and reads no file (the outcome does not depend on the enumerator
or the reader) and returns an empty result set; the run succeeds exactly
when the invalid list is also empty, and exits with code 1 when invalid
paths were supplied — so invalid pattern syntax is not the only non-zero
outcome. -/
theorem empty_valid_paths_behavior
    (build : List Nat → Bool → Except Nat Regex)
    (path_exists : List Nat → Bool)
    (e1 e2 : List (List Nat) → List (List Nat))
    (r1 r2 : List Nat → Option (List Nat))
    (patterns : List (List Nat)) (ignore_case : Bool)
    (paths : List (List Nat)) (rs : List Regex)
    (hcompile : compile_regex_with_cache build patterns ignore_case =
      Except.ok rs)
    (hempty : (partition_paths path_exists paths).1 = []) :
    run_app build path_exists e1 r1 patterns ignore_case paths =
      run_app build path_exists e2 r2 patterns ignore_case paths ∧
    ((partition_paths path_exists paths).2 = [] →
      run_app build path_exists e1 r1 patterns ignore_case paths =
        AppOutcome.ok []) ∧
    ((partition_paths path_exists paths).2 ≠ [] →
      run_app build path_exists e1 r1 patterns ignore_case paths =
        AppOutcome.exitCode 1) := by
  have h1 : ((partition_paths path_exists paths).1).isEmpty = true := by
    rw [hempty]
    rfl
  refine ⟨?_, ?_, ?_⟩
  · unfold run_app
    rw [hcompile, h1]
    rfl
  · intro h2
    have h2' : ((partition_paths path_exists paths).2).isEmpty = true := by
      rw [h2]
      rfl
    unfold run_app
    rw [hcompile, h1, h2']
    rfl
  · intro h2
    have h2' : ((partition_paths path_exists paths).2).isEmpty = false := by
      cases hp : (partition_paths path_exists paths).2 with
      | nil => exact absurd hp h2
      | cons a l => rfl
    unfold run_app
    rw [hcompile, h1, h2']
    rfl

/-- C7 amended witness: with no paths supplied at all, the run succeeds
with an empty result set. -/
theorem empty_valid_paths_behavior_witness :
    run_app build0 (fun _ => false) (fun v => v) (fun _ => none)
      [[97]] false [] = AppOutcome.ok [] :=
  (empty_valid_paths_behavior build0 (fun _ => false) (fun v => v)
    (fun v => v) (fun _ => none) (fun _ => none) [[97]] false []
    [⟨[97], fun _ => false⟩] rfl rfl).2.1 rfl

/-- C8: compilation with the cache is observably identical to compiling
every pattern independently without the cache (hence order-preserving: the
i-th output matcher is built from the i-th input pattern, and duplicate
patterns receive an equal matcher), and the builder is invoked at most once
per distinct (pattern, case-flag) key. -/
theorem compile_cache_refinement (build : List Nat → Bool → Except Nat Regex)
    (patterns : List (List Nat)) (ignore_case : Bool) :
    compile_regex_with_cache build patterns ignore_case =
      compile_regex_no_cache build patterns ignore_case ∧
    (∀ rs, compile_regex_with_cache build patterns ignore_case =
        Except.ok rs →
      rs.length = patterns.length ∧
      ∀ i (hip : i < patterns.length) (hir : i < rs.length),
        build (patterns.get ⟨i, hip⟩) ignore_case =
          Except.ok (rs.get ⟨i, hir⟩)) ∧
    (∀ rs built, compile_loop build patterns ignore_case [] =
        Except.ok (rs, built) →
      built.Nodup ∧ ∀ k ∈ built, k.2 = ignore_case ∧ k.1 ∈ patterns) := by
  refine ⟨compile_with_cache_eq_no_cache build patterns ignore_case,
    ?_, ?_⟩
  · intro rs h
    rw [compile_with_cache_eq_no_cache] at h
    exact compile_no_cache_get build ignore_case patterns rs h
  · intro rs built h
    obtain ⟨hnd, hmem⟩ :=
      compile_loop_built_spec build ignore_case patterns [] rs built h
    exact ⟨hnd, fun k hk => ⟨(hmem k hk).2.1, (hmem k hk).2.2⟩⟩

/-- C8 witness: compiling the duplicate-bearing list ["a", "b", "a"]
invokes the builder only on the two distinct keys, which are pairwise
different. -/
theorem compile_cache_refinement_witness :
    ([([97], false), ([98], false)] : List (List Nat × Bool)).Nodup :=
  ((compile_cache_refinement build0 [[97], [98], [97]] false).2.2
    [⟨[97], fun _ => false⟩, ⟨[98], fun _ => false⟩,
      ⟨[97], fun _ => false⟩]
    [([97], false), ([98], false)] rfl).1

end Finder
